import Mathlib

/-! # Verification of the OmniParser VLM agent response pipeline

Shallow embedding of the response-recovery and action-materialization
pipeline of `omnitool/gradio/agent/vlm_agent.py` together with the
provider adapters (`llm_utils/oaiclient.py`, `llm_utils/geminiclient.py`)
and the conversation-history image trimmer.

Python strings are modelled as `List Char`; Python floats as `Rat`
(exact rational arithmetic); fallible external collaborators
(`json.loads`, `requests.post`, the Gemini SDK call) as explicit
`Option`/`Except`-valued parameters; in-place mutation as explicit state
passing (the returned value is the mutated state).
-/

/-- Whitespace set of Python `str.strip` / regex `\s` (ASCII part):
space, tab, newline, carriage return, vertical tab, form feed. -/
def isPySpace (c : Char) : Bool :=
  c = ' ' || c = '\t' || c = '\n' || c = '\r' || c = Char.ofNat 11 || c = Char.ofNat 12

/-- The backtick character (written via its code point). -/
def btick : Char := Char.ofNat 96

/-- Drop leading Python whitespace. -/
def dropW (l : List Char) : List Char := l.dropWhile isPySpace

/-- Drop trailing Python whitespace. -/
def trimEnd (l : List Char) : List Char := (dropW l.reverse).reverse

/-- Python `str.strip()`: drop leading and trailing whitespace. -/
def pyStrip (l : List Char) : List Char := trimEnd (dropW l)

/-- Boolean prefix test on character lists (Python `str.startswith`). -/
def isPrefixL : List Char → List Char → Bool
  | [], _ => true
  | _ :: _, [] => false
  | a :: as, b :: bs => a = b && isPrefixL as bs

/-- Boolean suffix test on character lists (Python `str.endswith`). -/
def isSuffixL (p s : List Char) : Bool := isPrefixL p.reverse s.reverse

/-- ASCII lower-casing on code points, as used by regex `re.IGNORECASE`
for the ASCII pattern letters that occur in the source patterns. -/
def lowerN (n : Nat) : Nat := if 65 ≤ n ∧ n ≤ 90 then n + 32 else n

/-- Case-insensitive character comparison. -/
def ciEqc (a b : Char) : Bool := lowerN a.toNat = lowerN b.toNat

/-- Case-insensitive equality of equal-length character lists. -/
def ciEqL : List Char → List Char → Bool
  | [], [] => true
  | a :: as, b :: bs => ciEqc a b && ciEqL as bs
  | _, _ => false

/-- Case-insensitive prefix test. -/
def isPrefixCi : List Char → List Char → Bool
  | [], _ => true
  | _ :: _, [] => false
  | a :: as, b :: bs => ciEqc a b && isPrefixCi as bs

/-- Index of the leftmost case-insensitive occurrence of `needle`
(the start position regex `re.findall` with `re.IGNORECASE` picks). -/
def firstIdxCi (needle : List Char) : List Char → Option Nat
  | [] => if isPrefixCi needle [] then some 0 else none
  | s@(_ :: r) =>
    if isPrefixCi needle s then some 0 else (firstIdxCi needle r).map (· + 1)

/-- Index of the leftmost exact occurrence of `needle`. -/
def firstIdxL (needle : List Char) : List Char → Option Nat
  | [] => if isPrefixL needle [] then some 0 else none
  | s@(_ :: r) =>
    if isPrefixL needle s then some 0 else (firstIdxL needle r).map (· + 1)

/-- JSON-like values as produced by Python `json.loads` and manipulated
by the agent step (dict values, lists, strings, numbers, booleans, null).
Numbers are carried as exact rationals. -/
inductive JVal where
  | jnull : JVal
  | jbool : Bool → JVal
  | jnum : Rat → JVal
  | jstr : String → JVal
  | jarr : List JVal → JVal
  | jobj : List (String × JVal) → JVal

/-- Python `x == s` against a string literal: true only when `x` is the
equal string (comparisons of a string with other types are `False`). -/
def strEq (a : JVal) (s : String) : Bool :=
  match a with
  | .jstr t => t = s
  | _ => false

/-- A parsed top-level JSON object: insertion-ordered key/value pairs,
modelling the Python dict the pipeline works with. -/
abbrev PyObj := List (String × JVal)

/-- Key lookup on a parsed object (Python `d[k]` / `k in d`). -/
def lookupObj (o : PyObj) (k : String) : Option JVal :=
  (o.find? (fun p => p.1 = k)).map (fun p => p.2)

/-- Dict assignment `d[k] = v`: replace an existing binding in place,
otherwise append (Python dicts preserve insertion order). -/
def setKey (o : PyObj) (k : String) (v : JVal) : PyObj :=
  if o.any (fun p => p.1 = k) then
    o.map (fun p => if p.1 = k then (k, v) else p)
  else o ++ [(k, v)]

/-- Truncation toward zero, the behaviour of Python `int()` on a float. -/
def ratTrunc (q : Rat) : Int := if 0 ≤ q then q.floor else q.ceil

/-- Digit-string to number, for Python `int(str)` (simple decimal form;
underscore separators of Python literals are not modelled). -/
def digitsToNat : List Char → Option Nat
  | [] => none
  | l => if l.all (fun c => c.isDigit)
         then some (l.foldl (fun n c => 10 * n + (c.toNat - 48)) 0)
         else none

/-- Python `int(s)` on a string: strip whitespace, optional sign, digits. -/
def pyStrToInt (s : String) : Option Int :=
  match pyStrip s.data with
  | '-' :: r => (digitsToNat r).map (fun n => -(n : Int))
  | '+' :: r => (digitsToNat r).map (fun n => (n : Int))
  | r => (digitsToNat r).map (fun n => (n : Int))

/-- Python `int(x)` on a decoded JSON value. `int(True) = 1`;
lists, dicts and `None` raise (`none`). -/
def pyToInt : JVal → Option Int
  | .jnum q => some (ratTrunc q)
  | .jstr s => pyStrToInt s
  | .jbool b => some (if b then 1 else 0)
  | _ => none

/-- Python list indexing `l[i]`: non-negative from the front, negative
from the back; out of range raises (`none`). -/
def pyIndex (l : List α) (i : Int) : Option α :=
  if 0 ≤ i then l.get? i.toNat
  else if (-i).toNat ≤ l.length then l.get? (l.length - (-i).toNat)
  else none

/-! ## ContentExtractor: `extract_data` of `vlm_agent.py` (same algorithm as
`extract_data_debug` of `debug_json_parsing.py`, which also tags the
extraction method; the tag models the debug tool's `extraction_method`).

Each regex of the source's `patterns` list is realized operationally with
Python `re.findall` leftmost-match semantics (`re.DOTALL | re.IGNORECASE`).
-/

/-- Which branch of the extraction pattern cascade produced the result. -/
inductive ExtractMethod where
  | fenced : ExtractMethod
  | unlabeledFence : ExtractMethod
  | fenceNoClose : ExtractMethod
  | braceRegex : ExtractMethod
  | braceScan : ExtractMethod
  | fallback : ExtractMethod
  | nothing : ExtractMethod
  deriving DecidableEq

/-- Pattern 1, a labeled fenced block: the leftmost case-insensitive
occurrence of the opening marker followed (possibly after content) by a
closing marker; the lazy group captures the content between them (the
surrounding `\s*` parts only shift whitespace later removed by `strip`). -/
def pat1 (dt s : List Char) : Option (List Char) :=
  match firstIdxCi (("```".data) ++ dt) s with
  | none => none
  | some i =>
    let rest := s.drop (i + 3 + dt.length)
    match firstIdxL ("```".data) rest with
    | none => none
    | some j => some (rest.take j)

/-- Scan for the first closing brace of pattern 2's lazy group that is
followed by optional whitespace and a closing fence. `acc` carries the
group read so far, in reverse. -/
def findCloseFence : List Char → List Char → Option (List Char)
  | _, [] => none
  | acc, c :: r =>
    if c = '}' ∧ isPrefixL ("```".data) (r.dropWhile isPySpace) = true
    then some (acc.reverse ++ [c])
    else findCloseFence (c :: acc) r

/-- Pattern 2 attempted at the start of `s`: an unlabeled fence whose
content is a brace-delimited group. -/
def pat2At (s : List Char) : Option (List Char) :=
  if isPrefixL ("```".data) s then
    match (s.drop 3).dropWhile isPySpace with
    | c :: r => if c = '{' then findCloseFence ['{'] r else none
    | [] => none
  else none

/-- Pattern 2, leftmost match over all start positions. -/
def pat2 : List Char → Option (List Char)
  | [] => none
  | s@(_ :: r) =>
    match pat2At s with
    | some m => some m
    | none => pat2 r

/-- Pattern 3, an opening labeled fence with no closing marker: captures
everything after the leftmost marker (to end of text; the `strip` applied
by the caller erases the whitespace handling of `\s*` and `$`). -/
def pat3 (dt s : List Char) : Option (List Char) :=
  (firstIdxCi (("```".data) ++ dt) s).map (fun i => s.drop (i + 3 + dt.length))

/-- Character allowed inside pattern 4's `[^{}]*` runs. -/
def isNonBrace (c : Char) : Bool := ¬(c = '{' ∨ c = '}')

/-- Body of pattern 4 after the opening brace at the match start: a run of
non-braces, then greedily as many complete one-level `{...}` nests as
possible, then the closing brace. Deterministic reading of the regex
`(\{[^{}]*(?:\{[^{}]*\}[^{}]*)*\})`; a third nesting level kills the
match at this start. `fuel` only bounds the recursion (each step consumes
at least two characters of `l`). -/
def pat4Body : Nat → List Char → List Char → Option (List Char)
  | fuel, acc, l =>
    let a := l.takeWhile isNonBrace
    let l1 := l.drop a.length
    match fuel, l1 with
    | _, '}' :: _ => some (acc ++ a ++ (['}'] : List Char))
    | Nat.succ f, '{' :: r2 =>
      let a2 := r2.takeWhile isNonBrace
      let l2 := r2.drop a2.length
      match l2 with
      | '}' :: r3 =>
        pat4Body f (acc ++ a ++ (['{'] : List Char) ++ a2 ++ (['}'] : List Char)) r3
      | _ => none
    | _, _ => none

/-- Pattern 4 attempted at the start of `s`: must open with a brace. -/
def pat4At : List Char → Option (List Char)
  | c :: r => if c = '{' then pat4Body r.length (['{'] : List Char) r else none
  | [] => none

/-- Pattern 4, leftmost match over all start positions. -/
def pat4 : List Char → Option (List Char)
  | [] => none
  | s@(_ :: r) =>
    match pat4At s with
    | some m => some m
    | none => pat4 r

/-- The explicit brace-depth scan: walk from the brace at the head,
incrementing on `{` and decrementing on `}`; return the span closed at
depth 0, or nothing when the braces never balance (the source's `for`
loop then falls through). `acc` carries the span read so far, reversed. -/
def scanDepth : List Char → Nat → List Char → Option (List Char)
  | [], _, _ => none
  | c :: r, depth, acc =>
    if c = '{' then scanDepth r (depth + 1) (c :: acc)
    else if c = '}' then
      if depth = 1 then some ((c :: acc).reverse)
      else scanDepth r (depth - 1) (c :: acc)
    else scanDepth r depth (c :: acc)

/-- Fallback scan of `extract_data`: find the first `{` and match braces
by explicit counting. -/
def braceScan (s : List Char) : Option (List Char) :=
  match s.dropWhile (fun c => c ≠ '{') with
  | [] => none
  | rest => scanDepth rest 0 []

/-- The full `extract_data(input_string, data_type)` cascade, also
returning the method tag of the debug variant. Every branch's result is
`strip`ped, as in the source; the empty input short-circuits. -/
def extractData (dt s : List Char) : List Char × ExtractMethod :=
  if s = [] then ([], ExtractMethod.nothing)
  else match pat1 dt s with
  | some m => (pyStrip m, ExtractMethod.fenced)
  | none => match pat2 s with
    | some m => (pyStrip m, ExtractMethod.unlabeledFence)
    | none => match pat3 dt s with
      | some m => (pyStrip m, ExtractMethod.fenceNoClose)
      | none => match pat4 s with
        | some m => (pyStrip m, ExtractMethod.braceRegex)
        | none => match braceScan s with
          | some m => (pyStrip m, ExtractMethod.braceScan)
          | none => (pyStrip s, ExtractMethod.fallback)

/-- `extract_data` as the agent calls it: just the extracted text. -/
def extract_data (s dt : List Char) : List Char := (extractData dt s).1

/-! ## JsonRepairer: the inline cleanup of `VLMAgent.__call__`
(strip, fence markers, trailing-comma removal, parse, second-pass
repair, typed fallback). `json.loads` is the external parser, passed as
a parameter `parse`; the pipeline's control flow around it is modelled
exactly.
-/

/-- One pass of `re.sub(r',(\s*[}\]])', r'\1', s)`: remove a comma whose
following whitespace run ends at a closing brace or bracket; matches are
found left to right and do not overlap. The optional state holds the
whitespace (reversed) read since a pending comma. -/
def rtcAux : Option (List Char) → List Char → List Char
  | none, [] => []
  | none, c :: r => if c = ',' then rtcAux (some []) r else c :: rtcAux none r
  | some ws, [] => ',' :: ws.reverse
  | some ws, c :: r =>
    if isPySpace c then rtcAux (some (c :: ws)) r
    else if c = '}' ∨ c = ']' then ws.reverse ++ c :: rtcAux none r
    else if c = ',' then ',' :: ws.reverse ++ rtcAux (some []) r
    else ',' :: ws.reverse ++ c :: rtcAux none r

/-- Trailing-comma removal before `}` or `]` (first-pass cleanup). -/
def removeTrailingCommas (l : List Char) : List Char := rtcAux none l

/-- One pass of `re.sub(r',(\s*)(?=})', r'\1', s)` (second-pass repair):
like `removeTrailingCommas` but only before `}`, which the lookahead
leaves unconsumed. -/
def rcbAux : Option (List Char) → List Char → List Char
  | none, [] => []
  | none, c :: r => if c = ',' then rcbAux (some []) r else c :: rcbAux none r
  | some ws, [] => ',' :: ws.reverse
  | some ws, c :: r =>
    if isPySpace c then rcbAux (some (c :: ws)) r
    else if c = '}' then ws.reverse ++ c :: rcbAux none r
    else if c = ',' then ',' :: ws.reverse ++ rcbAux (some []) r
    else ',' :: ws.reverse ++ c :: rcbAux none r

/-- Second-pass comma cleanup. -/
def rcb (l : List Char) : List Char := rcbAux none l

/-- `re.sub(r'^[^{]*({.*})[^}]*$', r'\1', s, flags=re.DOTALL)`: when the
text has a `{` and a later `}`, keep exactly the span from the first `{`
to the last `}`; otherwise leave the text unchanged. -/
def ebs (l : List Char) : List Char :=
  let pre := l.takeWhile (fun c => c ≠ '{')
  let rest := l.drop pre.length
  let post := (rest.reverse.takeWhile (fun c => c ≠ '}')).reverse
  if post.length = rest.length then l
  else rest.take (rest.length - post.length)

/-- Second-pass repair applied between the two parse attempts. -/
def secondRepair (s : List Char) : List Char := ebs (rcb s)

/-- Normalization applied to the extracted candidate before the first
parse attempt: strip, drop a leading ```` ```json ```` or ```` ``` ````
marker and a trailing ```` ``` ```` marker, strip again, remove trailing
commas. -/
def normalizeCandidate (c : List Char) : List Char :=
  let s0 := pyStrip c
  let s1 := if isPrefixL ("```json".data) s0 then s0.drop 7 else s0
  let s2 := if isPrefixL ("```".data) s1 then s1.drop 3 else s1
  let s3 := if isSuffixL ("```".data) s2 then s2.take (s2.length - 3) else s2
  removeTrailingCommas (pyStrip s3)

/-- Error analysis of the double-failure branch (`error_reason`). -/
def errorReason (s : List Char) : String :=
  if s.length = 0 then "Empty response"
  else if ¬(isPrefixL ("\x7b".data) (pyStrip s) = true) then
    "Response doesn\x27t start with \x27\x7b\x27"
  else if ¬(isSuffixL ("\x7d".data) (pyStrip s) = true) then
    "Response doesn\x27t end with \x27\x7d\x27"
  else "Invalid JSON syntax"

/-- Synthetic directive substituted for an empty or whitespace-only
candidate. -/
def defaultEmptyDirective : PyObj :=
  [(("Reasoning" : String),
    JVal.jstr ("Empty response received, taking screenshot to assess current state")),
   (("Next Action" : String), JVal.jstr ("screenshot"))]

/-- Synthetic directive substituted when both parse attempts fail. -/
def defaultFailDirective (s : List Char) : PyObj :=
  [(("Reasoning" : String),
    JVal.jstr (("JSON parsing failed (" : String) ++ errorReason s
      ++ ("), taking screenshot to assess current state" : String))),
   (("Next Action" : String), JVal.jstr ("screenshot"))]

/-- The repair-and-parse pipeline of `VLMAgent.__call__` (lines 222-282):
normalize, short-circuit whitespace-only candidates to the fallback,
attempt a parse, on failure repair and retry, on second failure
substitute the typed fallback. Total: no parse failure escapes. -/
def repairAndParse (parse : List Char → Option PyObj) (c : List Char) : PyObj :=
  let s := normalizeCandidate c
  if s.all isPySpace then defaultEmptyDirective
  else match parse s with
    | some o => o
    | none =>
      match parse (secondRepair s) with
      | some o => o
      | none => defaultFailDirective s

/-! ## ActionDecoder: Box ID resolution and `Next Action` dispatch
(`VLMAgent.__call__` lines 284-338). The PIL drawing of the marker is an
external display concern (out of the embedded scope); what is modelled is
whether the annotated image or the plain SOM image is displayed.
-/

/-- A detected screen element of `parsed_content_list`, with its
normalized bounding box `[b0, b1, b2, b3]`. -/
structure ScreenElement where
  b0 : Rat
  b1 : Rat
  b2 : Rat
  b3 : Rat

/-- The `Box ID` branch: when the key is present, convert it with
`int()`, index `parsed_content_list`, store the scaled centroid under
`box_centroid_coordinate` and annotate the displayed image; every failure
inside the `try` is swallowed and the SOM image is shown unannotated.
The boolean is `true` when the marker-annotated image is displayed. -/
def applyBoxId (d : PyObj) (elems : List ScreenElement) (w h : Rat) : PyObj × Bool :=
  match lookupObj d ("Box ID") with
  | none => (d, false)
  | some v =>
    match pyToInt v with
    | none => (d, false)
    | some i =>
      match pyIndex elems i with
      | none => (d, false)
      | some el =>
        (setKey d ("box_centroid_coordinate")
          (JVal.jarr [JVal.jnum ((ratTrunc ((el.b0 + el.b2) / 2 * w) : Int) : Rat),
                      JVal.jnum ((ratTrunc ((el.b1 + el.b3) / 2 * h) : Int) : Rat)]),
         true)

/-- Display-only rendering of a decoded value into the plan string
(approximates Python `str()`/`repr()`; no claim depends on its output). -/
def pyStr : JVal → String
  | .jnull => "None"
  | .jbool b => if b then "True" else "False"
  | .jnum q => if q.den = 1 then toString q.num else toString q
  | .jstr s => s
  | .jarr _ => "[...]"
  | .jobj _ => "\x7b...\x7d"

/-- The `vlm_plan_str` accumulation over the directive's fields. -/
def planStr (d : PyObj) : String :=
  d.foldl
    (fun acc p =>
      if p.1 = ("Reasoning" : String) then acc ++ pyStr p.2
      else acc ++ ("\n" : String) ++ p.1 ++ (": " : String) ++ pyStr p.2)
    ("" : String)

/-- Content blocks of the constructed response message. -/
inductive Block where
  | textBlock : String → Block
  | mouseMove : JVal → Block
  | typeAction : JVal → JVal → Block
  | action : JVal → Block

/-- The dispatch on `Next Action` (lines 312-338): build the text block,
a `mouse_move` tool call when a centroid was resolved, then the action
block. Missing `Next Action` (or a missing `value` for `type`) raises a
`KeyError`, modelled as `Except.error`; any other action string is put
into a tool-use block as is. -/
def dispatch (d : PyObj) : Except String (List Block) :=
  let base := Block.textBlock (planStr d) ::
    (match lookupObj d ("box_centroid_coordinate") with
     | some c => [Block.mouseMove c]
     | none => [])
  match lookupObj d ("Next Action") with
  | none => Except.error ("KeyError: Next Action")
  | some a =>
    if strEq a ("None" : String) then Except.ok base
    else if strEq a ("type" : String) then
      match lookupObj d ("value") with
      | none => Except.error ("KeyError: value")
      | some v => Except.ok (base ++ [Block.typeAction a v])
    else Except.ok (base ++ [Block.action a])

/-- Everything after a directive is in hand: Box ID resolution, then
dispatch. Returns the (possibly extended) directive, whether the
annotated image is displayed, and the dispatch outcome. -/
def postParse (d : PyObj) (elems : List ScreenElement) (w h : Rat) :
    PyObj × Bool × Except String (List Block) :=
  ((applyBoxId d elems w h).1, (applyBoxId d elems w h).2,
   dispatch (applyBoxId d elems w h).1)

/-- One agent step from the extracted candidate onward. -/
def processCandidate (parse : List Char → Option PyObj) (elems : List ScreenElement)
    (w h : Rat) (c : List Char) : PyObj × Bool × Except String (List Block) :=
  postParse (repairAndParse parse c) elems w h

/-! ## Provider adapters (`oaiclient.py`, `geminiclient.py`)

The HTTP transport and the SDK call are external collaborators whose
outcome is passed in as an `Except` value (`Except.error` = the call
raised). What is embedded is the adapters' own control flow around them:
which failures are converted into an `(errorText, 0)` pair and which
propagate.
-/

/-- Outcome of `requests.post`: an HTTP status code and the result of
`response.json()` (which raises on a non-JSON body; `requests` re-parses
on every call, so a failing `response.json()` fails again when the
except-handler formats its message). -/
structure HttpResponse where
  status : Nat
  body : Except String JVal

/-- Field access `j[k]` on a decoded value (raises on missing key or
non-dict, both swallowed by the handler's `except Exception`). -/
def jGet (j : JVal) (k : String) : Option JVal :=
  match j with
  | .jobj f => lookupObj f k
  | _ => none

/-- Index access `j[i]` on a decoded value. -/
def jIdx (j : JVal) (i : Nat) : Option JVal :=
  match j with
  | .jarr l => l.get? i
  | _ => none

/-- `response_json['choices'][0]['message']['content']`. -/
def oaiContent (j : JVal) : Option JVal :=
  ((jGet j ("choices")).bind (fun x => jIdx x 0)).bind
    (fun x => (jGet x ("message")).bind (fun y => jGet y ("content")))

/-- `int(response_json['usage']['total_tokens'])`. -/
def oaiUsage (j : JVal) : Option Int :=
  ((jGet j ("usage")).bind (fun x => jGet x ("total_tokens"))).bind pyToInt

/-- `run_oai_interleaved`, from the `requests.post` call onward. The
`try` block covers only `response.json()` and the field extraction; a
transport failure raised by `requests.post` itself propagates, and the
except-handler's message formatting calls `response.json()` again, so a
non-JSON body also propagates. A non-200 status with a JSON body and a
200 body with missing fields return `(errorText, 0)`. -/
def run_oai_interleaved (post : Except String HttpResponse) :
    Except String (JVal × Int) :=
  match post with
  | .error e => .error e
  | .ok resp =>
    match resp.body with
    | .error e => .error e
    | .ok j =>
      if resp.status = 200 then
        match oaiContent j, oaiUsage j with
        | some t, some u => .ok (t, u)
        | _, _ =>
          .ok (JVal.jstr (("Error in interleaved openAI: KeyError. This may due to your invalid API key. Please check the response: " : String)
            ++ pyStr j), 0)
      else
        .ok (JVal.jstr (("API 请求失败，状态码: " : String) ++ toString resp.status
          ++ (", 响应: " : String) ++ pyStr j), 0)

/-- `run_gemini_interleaved`: `_make_request` wraps the whole SDK
interaction in `try/except Exception` and converts any failure into an
`(errorText, 0)` pair; the outer `try` around the proxy scope therefore
never sees an exception. `gen` is the SDK call's outcome and `est` the
token estimate computed on success. Total: never raises. -/
def run_gemini_interleaved (gen : Except String String) (est : Int) :
    Except String (String × Int) :=
  .ok (match gen with
       | .ok t => (t, est)
       | .error e => (("Gemini API请求失败: " : String) ++ e, 0))

/-! ## ContextTrimmer: `_maybe_filter_to_n_most_recent_images`

Content items are text strings, image-path strings, or `tool_result`
wrappers holding further items. Modelled from the spec: `is_image_path`
(`llm_utils/utils.py`, not under `src/`) classifies a string content item
as an image reference; it is modelled as the `imagePath` constructor tag,
so the predicate is the constructor discrimination. The Python removal
counter is an `int` guarded by `> 0` at every removal, so only its
positive part acts; it is modelled as the truncated-subtraction `Nat`
obtained below in `maybe_filter_to_n_most_recent_images`.
-/

/-- An entry of a `tool_result` wrapper's inner content list. -/
inductive TItem where
  | timage : String → TItem
  | tother : String → TItem
  deriving DecidableEq

/-- A content item of a message. -/
inductive CItem where
  | text : String → CItem
  | imagePath : String → CItem
  | toolResult : List TItem → CItem
  deriving DecidableEq

/-- Is this inner item an image (`content.get("type") == "image"`)? -/
def isTImage : TItem → Bool
  | .timage _ => true
  | _ => false

/-- Images inside a `tool_result` wrapper. -/
def countT : List TItem → Nat
  | [] => 0
  | t :: ts => (if isTImage t then 1 else 0) + countT ts

/-- Images carried by one content item (first counting pass, per item). -/
def countC : CItem → Nat
  | .imagePath _ => 1
  | .toolResult ts => countT ts
  | _ => 0

/-- Images in one message's content list. -/
def countMsg : List CItem → Nat
  | [] => 0
  | c :: cs => countC c + countMsg cs

/-- `total_images`: images across the whole history. -/
def countImages : List (List CItem) → Nat
  | [] => 0
  | m :: ms => countMsg m + countImages ms

/-- The payloads of the image items of a wrapper, oldest first. -/
def imageSeqT : List TItem → List String
  | [] => []
  | .timage d :: ts => d :: imageSeqT ts
  | _ :: ts => imageSeqT ts

/-- The payloads of the image items of one content item. -/
def imageSeqC : CItem → List String
  | .imagePath p => [p]
  | .toolResult ts => imageSeqT ts
  | _ => []

/-- Image payloads of one message, oldest first. -/
def imageSeqMsg : List CItem → List String
  | [] => []
  | c :: cs => imageSeqC c ++ imageSeqMsg cs

/-- Image payloads of the whole history, oldest first. -/
def imageSeqH : List (List CItem) → List String
  | [] => []
  | m :: ms => imageSeqMsg m ++ imageSeqH ms

/-- Removal pass inside a `tool_result` wrapper: drop image entries while
the removal budget lasts; return the filtered list and the remaining
budget. -/
def filterTool : Nat → List TItem → List TItem × Nat
  | n, [] => ([], n)
  | n, t :: ts =>
    if isTImage t ∧ 0 < n then filterTool (n - 1) ts
    else
      let r := filterTool n ts
      (t :: r.1, r.2)

/-- Removal pass over one message's content list: image-path items are
dropped while the budget lasts; `tool_result` wrappers are kept (possibly
emptied) with their inner images filtered; everything else is kept. -/
def filterMsg : Nat → List CItem → List CItem × Nat
  | n, [] => ([], n)
  | n, c :: cs =>
    match c with
    | .imagePath _ =>
      if 0 < n then filterMsg (n - 1) cs
      else
        let r := filterMsg n cs
        (c :: r.1, r.2)
    | .toolResult ts =>
      let rt := filterTool n ts
      let r := filterMsg rt.2 cs
      (CItem.toolResult rt.1 :: r.1, r.2)
    | _ =>
      let r := filterMsg n cs
      (c :: r.1, r.2)

/-- Removal pass over the whole history, oldest message first. -/
def filterHist : Nat → List (List CItem) → List (List CItem) × Nat
  | n, [] => ([], n)
  | n, m :: ms =>
    let rm := filterMsg n m
    let r := filterHist rm.2 ms
    (rm.1 :: r.1, r.2)

/-- `_maybe_filter_to_n_most_recent_images(messages, images_to_keep)`:
`keep = none` is the identity; otherwise count all images, then remove
`total - keep` of them oldest first (no removal when the difference is
not positive). The returned history is the caller's list after the
in-place mutation. -/
def maybe_filter_to_n_most_recent_images (h : List (List CItem))
    (keep : Option Int) : List (List CItem) :=
  match keep with
  | none => h
  | some k => (filterHist ((countImages h : Int) - k).toNat h).1

/-- Witnesses that the first list is the second with only inner image
entries removed, order preserved. -/
inductive RemT : List TItem → List TItem → Prop where
  | nil : RemT [] []
  | keep (t : TItem) {ts ts' : List TItem} : RemT ts ts' → RemT (t :: ts) (t :: ts')
  | drop (d : String) {ts ts' : List TItem} : RemT ts ts' → RemT ts (TItem.timage d :: ts')

/-- Witnesses that the first content list is the second with only image
items removed (image-path items dropped, or inner images dropped from a
kept `tool_result` wrapper), order preserved. -/
inductive RemC : List CItem → List CItem → Prop where
  | nil : RemC [] []
  | keep (c : CItem) {cs cs' : List CItem} : RemC cs cs' → RemC (c :: cs) (c :: cs')
  | tool {ts ts' : List TItem} {cs cs' : List CItem} :
      RemT ts ts' → RemC cs cs' →
      RemC (CItem.toolResult ts :: cs) (CItem.toolResult ts' :: cs')
  | dropImg (p : String) {cs cs' : List CItem} :
      RemC cs cs' → RemC cs (CItem.imagePath p :: cs')

/-- No comma of the list is a textual trailing comma: scanning left to
right, no `,` is followed by optional whitespace and then `}` or `]` (a
comma whose whitespace run reaches the end of the list is not trailing).
This captures the "exactly one trailing comma" side condition of the
repair claims: the explicitly named comma is the only one the cleanup
regex touches. -/
def noTC : List Char → Bool
  | [] => true
  | c :: r =>
    if c = ',' then
      (match r.dropWhile isPySpace with
       | [] => true
       | d :: _ => !(d = '}' || d = ']')) && noTC r
    else noTC r

/-- A small concrete conversation history used to instantiate the
trimming theorem: three images (an image path, a nested tool-result
image, another image path) interleaved with non-image items. -/
def exHistory : List (List CItem) :=
  [[CItem.imagePath ("img0"), CItem.text ("hello")],
   [CItem.toolResult [TItem.timage ("img1"), TItem.tother ("note")],
    CItem.imagePath ("img2")]]

/-! ## Theorems

Helper lemmas first, then one theorem per claim (with its witness or
counterexample).
-/

theorem filterTool_snd (ts : List TItem) : ∀ n, (filterTool n ts).2 = n - countT ts := by
  induction ts with
  | nil => intro n; simp [filterTool, countT]
  | cons t ts ih =>
    intro n
    simp only [filterTool]
    split
    · next h =>
      rw [ih]
      simp [countT, h.1]
      omega
    · next h =>
      simp only [countT]
      rw [ih]
      by_cases ht : isTImage t = true
      · have hn : ¬ 0 < n := fun hh => h (And.intro ht hh)
        simp [ht]
        omega
      · simp [ht]

theorem countT_filterTool (ts : List TItem) :
    ∀ n, countT (filterTool n ts).1 = countT ts - n := by
  induction ts with
  | nil => intro n; simp [filterTool, countT]
  | cons t ts ih =>
    intro n
    simp only [filterTool]
    split
    · next h =>
      rw [ih]
      have := h.2
      simp [countT, h.1]
      omega
    · next h =>
      simp only [countT]
      rw [ih]
      by_cases ht : isTImage t = true
      · have hn : ¬ 0 < n := fun hh => h (And.intro ht hh)
        simp [countT, ht]
        omega
      · simp [countT, ht]

theorem imageSeqT_filterTool (ts : List TItem) :
    ∀ n, imageSeqT (filterTool n ts).1 = (imageSeqT ts).drop n := by
  induction ts with
  | nil => intro n; simp [filterTool, imageSeqT]
  | cons t ts ih =>
    intro n
    simp only [filterTool]
    split
    · next h =>
      cases t with
      | timage d =>
        have hpos := h.2
        rw [ih]
        simp only [imageSeqT]
        cases n with
        | zero => omega
        | succ m => simp [List.drop_succ_cons]
      | tother d => exact absurd h.1 (by simp [isTImage])
    · next h =>
      cases t with
      | timage d =>
        have hn : ¬ 0 < n := fun hh => h (And.intro rfl hh)
        have hn0 : n = 0 := by omega
        subst hn0
        simp only [imageSeqT, List.drop_zero]
        rw [ih]
        simp
      | tother d =>
        simp only [imageSeqT]
        exact ih n

theorem remT_filterTool (ts : List TItem) : ∀ n, RemT (filterTool n ts).1 ts := by
  induction ts with
  | nil => intro n; exact RemT.nil
  | cons t ts ih =>
    intro n
    simp only [filterTool]
    split
    · next h =>
      cases t with
      | timage d => exact RemT.drop d (ih (n - 1))
      | tother d => exact absurd h.1 (by simp [isTImage])
    · next _ => exact RemT.keep t (ih n)

theorem length_imageSeqT (ts : List TItem) : (imageSeqT ts).length = countT ts := by
  induction ts with
  | nil => simp [imageSeqT, countT]
  | cons t ts ih =>
    cases t with
    | timage d => simp [imageSeqT, countT, isTImage, ih]; omega
    | tother d => simp [imageSeqT, countT, isTImage, ih]

theorem filterMsg_snd (cs : List CItem) : ∀ n, (filterMsg n cs).2 = n - countMsg cs := by
  induction cs with
  | nil => intro n; simp [filterMsg, countMsg]
  | cons c cs ih =>
    intro n
    cases c with
    | text s => simp only [filterMsg, countMsg, countC, ih]; omega
    | imagePath p =>
      simp only [filterMsg, countMsg, countC]
      split
      · next h => rw [ih]; omega
      · next h =>
        rw [ih]
        omega
    | toolResult ts =>
      simp only [filterMsg, countMsg, countC, ih, filterTool_snd]
      omega

theorem countMsg_filterMsg (cs : List CItem) :
    ∀ n, countMsg (filterMsg n cs).1 = countMsg cs - n := by
  induction cs with
  | nil => intro n; simp [filterMsg, countMsg]
  | cons c cs ih =>
    intro n
    cases c with
    | text s => simp only [filterMsg, countMsg, countC, ih]; omega
    | imagePath p =>
      simp only [filterMsg, countMsg, countC]
      split
      · next h => rw [ih]; omega
      · next h =>
        simp only [countMsg, countC]
        rw [ih]
        omega
    | toolResult ts =>
      simp only [filterMsg, countMsg, countC, ih, filterTool_snd, countT_filterTool]
      omega

theorem imageSeqMsg_filterMsg (cs : List CItem) :
    ∀ n, imageSeqMsg (filterMsg n cs).1 = (imageSeqMsg cs).drop n := by
  induction cs with
  | nil => intro n; simp [filterMsg, imageSeqMsg]
  | cons c cs ih =>
    intro n
    cases c with
    | text s =>
      simp only [filterMsg, imageSeqMsg, imageSeqC, ih, List.nil_append]
    | imagePath p =>
      simp only [filterMsg, imageSeqMsg, imageSeqC]
      split
      · next h =>
        rw [ih]
        cases n with
        | zero => omega
        | succ m => simp [List.drop_succ_cons]
      · next h =>
        have hn0 : n = 0 := by omega
        subst hn0
        simp only [imageSeqMsg, imageSeqC, List.drop_zero, List.singleton_append]
        rw [ih]
        simp
    | toolResult ts =>
      simp only [filterMsg, imageSeqMsg, imageSeqC, ih, filterTool_snd,
        imageSeqT_filterTool, List.drop_append_eq_append_drop, length_imageSeqT]

theorem remC_filterMsg (cs : List CItem) : ∀ n, RemC (filterMsg n cs).1 cs := by
  induction cs with
  | nil => intro n; exact RemC.nil
  | cons c cs ih =>
    intro n
    cases c with
    | text s => exact RemC.keep _ (ih n)
    | imagePath p =>
      simp only [filterMsg]
      split
      · next h => exact RemC.dropImg p (ih (n - 1))
      · next h => exact RemC.keep _ (ih n)
    | toolResult ts =>
      exact RemC.tool (remT_filterTool ts n) (ih _)

theorem filterHist_snd (h : List (List CItem)) :
    ∀ n, (filterHist n h).2 = n - countImages h := by
  induction h with
  | nil => intro n; simp [filterHist, countImages]
  | cons m ms ih =>
    intro n
    simp only [filterHist, countImages, ih, filterMsg_snd]
    omega

theorem countImages_filterHist (h : List (List CItem)) :
    ∀ n, countImages (filterHist n h).1 = countImages h - n := by
  induction h with
  | nil => intro n; simp [filterHist, countImages]
  | cons m ms ih =>
    intro n
    simp only [filterHist, countImages, ih, filterMsg_snd, countMsg_filterMsg]
    omega

theorem length_imageSeqMsg (cs : List CItem) : (imageSeqMsg cs).length = countMsg cs := by
  induction cs with
  | nil => simp [imageSeqMsg, countMsg]
  | cons c cs ih =>
    cases c with
    | text s => simp [imageSeqMsg, imageSeqC, countMsg, countC, ih]
    | imagePath p => simp [imageSeqMsg, imageSeqC, countMsg, countC, ih]; omega
    | toolResult ts =>
      simp [imageSeqMsg, imageSeqC, countMsg, countC, ih, length_imageSeqT]

theorem imageSeqH_filterHist (h : List (List CItem)) :
    ∀ n, imageSeqH (filterHist n h).1 = (imageSeqH h).drop n := by
  induction h with
  | nil => intro n; simp [filterHist, imageSeqH]
  | cons m ms ih =>
    intro n
    simp only [filterHist, imageSeqH, ih, filterMsg_snd, imageSeqMsg_filterMsg,
      List.drop_append_eq_append_drop, length_imageSeqMsg]

theorem remC_filterHist (h : List (List CItem)) :
    ∀ n, List.Forall₂ RemC (filterHist n h).1 h := by
  induction h with
  | nil => intro n; exact List.Forall₂.nil
  | cons m ms ih =>
    intro n
    exact List.Forall₂.cons (remC_filterMsg m n) (ih _)

/-- Claim C2: after trimming with `keep >= 0` the total image count is
`min(original, keep)`; the retained images are the most recent ones
(oldest removed first: the surviving image sequence is the suffix of the
original one); non-image items are never removed and the relative order
of all retained items is unchanged (`Forall₂ RemC`); `keep = none`
leaves the history unchanged. The returned history is the in-place
mutated state of the caller's list. -/
theorem trim_images_spec (h : List (List CItem)) (k : Int) (hk : 0 ≤ k) :
    maybe_filter_to_n_most_recent_images h none = h
    ∧ (countImages (maybe_filter_to_n_most_recent_images h (some k)) : Int)
        = min (countImages h : Int) k
    ∧ imageSeqH (maybe_filter_to_n_most_recent_images h (some k))
        = (imageSeqH h).drop (((countImages h : Int) - k).toNat)
    ∧ List.Forall₂ RemC (maybe_filter_to_n_most_recent_images h (some k)) h := by
  refine ⟨rfl, ?_, ?_, ?_⟩
  · simp only [maybe_filter_to_n_most_recent_images, countImages_filterHist]
    omega
  · simp only [maybe_filter_to_n_most_recent_images, imageSeqH_filterHist]
  · exact remC_filterHist h _

/-- Witness for C2 at a concrete three-image history with `keep = 1`. -/
theorem trim_images_spec_witness :
    (0 : Int) ≤ 1 ∧
    (maybe_filter_to_n_most_recent_images exHistory none = exHistory
     ∧ (countImages (maybe_filter_to_n_most_recent_images exHistory (some 1)) : Int)
         = min (countImages exHistory : Int) 1
     ∧ imageSeqH (maybe_filter_to_n_most_recent_images exHistory (some 1))
         = (imageSeqH exHistory).drop (((countImages exHistory : Int) - 1).toNat)
     ∧ List.Forall₂ RemC (maybe_filter_to_n_most_recent_images exHistory (some 1))
         exHistory) :=
  ⟨by decide, trim_images_spec exHistory 1 (by decide)⟩

theorem dropW_dropW (l : List Char) : dropW (dropW l) = dropW l := by
  induction l with
  | nil => simp [dropW]
  | cons c r ih =>
    by_cases h : isPySpace c = true
    · simp [dropW, List.dropWhile_cons, h] at ih ⊢
      exact ih
    · simp [dropW, List.dropWhile_cons, h]

theorem trimEnd_trimEnd (l : List Char) : trimEnd (trimEnd l) = trimEnd l := by
  simp only [trimEnd, List.reverse_reverse]
  rw [show dropW (dropW l.reverse) = dropW l.reverse from dropW_dropW _]

theorem dropW_eq_self_of_fix (x : List Char) (hx : dropW x = x) :
    dropW (trimEnd x) = trimEnd x := by
  have hpre : trimEnd x <+: x := by
    simpa [trimEnd] using (List.dropWhile_suffix isPySpace (l := x.reverse)).reverse
  cases he : trimEnd x with
  | nil => simp [dropW]
  | cons c r =>
    have hhead : isPySpace c = false := by
      rw [he] at hpre
      obtain ⟨t, ht⟩ := hpre
      by_contra hc
      have hc' : isPySpace c = true := by
        cases hcc : isPySpace c with
        | false => exact absurd hcc hc
        | true => rfl
      have hx2 : x = dropW (r ++ t) := by
        conv_lhs => rw [← hx, ← ht]
        rw [show (c :: r) ++ t = c :: (r ++ t) from rfl]
        simp [dropW, List.dropWhile_cons, hc']
      have hlen : (dropW (r ++ t)).length ≤ (r ++ t).length :=
        ((List.dropWhile_suffix isPySpace (l := r ++ t)).sublist).length_le
      have hxlen : x.length = r.length + t.length + 1 := by
        rw [← ht]
        simp only [List.cons_append, List.length_cons, List.length_append]
      have hx2len := congrArg List.length hx2
      simp only [List.length_append] at hlen hxlen hx2len
      omega
    simp [dropW, List.dropWhile_cons, hhead]

theorem pyStrip_idem (l : List Char) : pyStrip (pyStrip l) = pyStrip l := by
  simp only [pyStrip]
  rw [dropW_eq_self_of_fix (dropW l) (dropW_dropW l), trimEnd_trimEnd]

theorem isPySpace_ne_comma {c : Char} (h : isPySpace c = true) : ¬(c = ',') := by
  intro hc
  subst hc
  simp [isPySpace] at h

theorem rtcAux_held (l : List Char) :
    ∀ acc, (∀ d t, l.dropWhile isPySpace = d :: t → ¬(d = '}' ∨ d = ']')) →
    rtcAux (some acc) l = ',' :: acc.reverse ++ rtcAux none l := by
  induction l with
  | nil => intro acc _; simp [rtcAux]
  | cons c r ih =>
    intro acc hcond
    by_cases hsp : isPySpace c = true
    · have hc1 : ¬(c = ',') := isPySpace_ne_comma hsp
      rw [show rtcAux (some acc) (c :: r) = rtcAux (some (c :: acc)) r from by
            simp [rtcAux, hsp]]
      rw [ih (c :: acc) (fun d t hdt =>
            hcond d t (by rwa [List.dropWhile_cons_of_pos hsp]))]
      rw [show rtcAux none (c :: r) = c :: rtcAux none r from by simp [rtcAux, hc1]]
      simp
    · have hbr : ¬(c = '}' ∨ c = ']') :=
        hcond c r (List.dropWhile_cons_of_neg (by simpa using hsp))
      by_cases hc : c = ','
      · subst hc
        rw [show rtcAux (some acc) (',' :: r)
              = ',' :: acc.reverse ++ rtcAux (some []) r from by
              simp [rtcAux, isPySpace, hbr]]
        rw [show rtcAux none (',' :: r) = rtcAux (some []) r from by simp [rtcAux]]
      · rw [show rtcAux (some acc) (c :: r)
              = ',' :: acc.reverse ++ c :: rtcAux none r from by
              simp [rtcAux, hsp, hbr, hc]]
        rw [show rtcAux none (c :: r) = c :: rtcAux none r from by simp [rtcAux, hc]]

theorem noTC_comma {r : List Char} (h : noTC (',' :: r) = true) :
    (∀ d t, r.dropWhile isPySpace = d :: t → ¬(d = '}' ∨ d = ']')) ∧ noTC r = true := by
  rw [show noTC (',' :: r)
        = ((match r.dropWhile isPySpace with
            | [] => true
            | d :: _ => !(d = '}' || d = ']')) && noTC r) from by simp [noTC]] at h
  rw [Bool.and_eq_true] at h
  refine ⟨?_, h.2⟩
  intro d t hdt
  have h1 := h.1
  rw [hdt] at h1
  simp only [Bool.not_eq_true', Bool.or_eq_false_iff, decide_eq_false_iff_not] at h1
  intro hor
  exact hor.elim h1.1 h1.2

theorem noTC_cons_other {c : Char} {r : List Char} (hc : ¬(c = ',')) :
    noTC (c :: r) = noTC r := by
  simp [noTC, hc]

theorem rtcAux_id (l : List Char) (h : noTC l = true) : rtcAux none l = l := by
  induction l with
  | nil => rfl
  | cons c r ih =>
    by_cases hc : c = ','
    · subst hc
      obtain ⟨h1, h2⟩ := noTC_comma h
      rw [show rtcAux none (',' :: r) = rtcAux (some []) r from by simp [rtcAux]]
      rw [rtcAux_held r [] h1]
      simp [ih h2]
    · rw [noTC_cons_other hc] at h
      rw [show rtcAux none (c :: r) = c :: rtcAux none r from by simp [rtcAux, hc]]
      rw [ih h]

theorem rtcAux_match (w : List Char) :
    ∀ acc b, w.all isPySpace = true →
    rtcAux (some acc) (w ++ '}' :: b) = acc.reverse ++ w ++ '}' :: rtcAux none b := by
  induction w with
  | nil =>
    intro acc b _
    simp [rtcAux, isPySpace]
  | cons c w ih =>
    intro acc b hall
    simp only [List.all_cons, Bool.and_eq_true] at hall
    rw [List.cons_append,
        show rtcAux (some acc) (c :: (w ++ '}' :: b)) = rtcAux (some (c :: acc)) (w ++ '}' :: b)
          from by simp [rtcAux, hall.1]]
    rw [ih (c :: acc) b hall.2]
    simp

theorem rtc_removes_single (a w b : List Char)
    (ha : noTC a = true) (hw : w.all isPySpace = true) (hb : noTC b = true) :
    removeTrailingCommas (a ++ ',' :: (w ++ '}' :: b)) = a ++ (w ++ '}' :: b) := by
  induction a with
  | nil =>
    simp only [List.nil_append, removeTrailingCommas]
    rw [show rtcAux none (',' :: (w ++ '}' :: b)) = rtcAux (some []) (w ++ '}' :: b)
          from by simp [rtcAux]]
    rw [rtcAux_match w [] b hw]
    simp [rtcAux_id b hb]
  | cons c a ih =>
    by_cases hc : c = ','
    · subst hc
      obtain ⟨h1, h2⟩ := noTC_comma ha
      simp only [removeTrailingCommas, List.cons_append]
      rw [show rtcAux none (',' :: (a ++ ',' :: (w ++ '}' :: b)))
            = rtcAux (some []) (a ++ ',' :: (w ++ '}' :: b)) from by simp [rtcAux]]
      have hcond : ∀ d t, (a ++ ',' :: (w ++ '}' :: b)).dropWhile isPySpace = d :: t →
          ¬(d = '}' ∨ d = ']') := by
        intro d t hdt
        rw [List.dropWhile_append] at hdt
        by_cases hda : (a.dropWhile isPySpace).isEmpty = true
        · rw [if_pos hda] at hdt
          rw [List.dropWhile_cons_of_neg (by simp [isPySpace])] at hdt
          have hd : d = ',' := ((List.cons.injEq _ _ _ _).mp hdt).1.symm
          subst hd
          intro hor
          rcases hor with h3 | h3 <;> simp at h3
        · rw [if_neg hda] at hdt
          cases hda2 : a.dropWhile isPySpace with
          | nil => rw [hda2] at hda; simp at hda
          | cons d0 t0 =>
            rw [hda2] at hdt
            have hd : d0 = d := (List.cons.injEq _ _ _ _).mp hdt |>.1
            subst hd
            exact h1 d0 t0 hda2
      rw [rtcAux_held _ [] hcond]
      simp only [List.reverse_nil, List.nil_append]
      have := ih h2
      simp only [removeTrailingCommas] at this
      rw [this]
      simp
    · rw [noTC_cons_other hc] at ha
      simp only [removeTrailingCommas, List.cons_append]
      rw [show rtcAux none (c :: (a ++ ',' :: (w ++ '}' :: b)))
            = c :: rtcAux none (a ++ ',' :: (w ++ '}' :: b)) from by simp [rtcAux, hc]]
      have := ih ha
      simp only [removeTrailingCommas] at this
      rw [this]

/-- Claim C9: a candidate that is valid JSON except for exactly one
textual trailing comma immediately preceding a closing brace (up to
whitespace) parses to the same object as its comma-free version: the
first-pass comma removal deletes exactly that comma, so the first parse
attempt already succeeds. The side conditions say the candidate strips
to an object form `{a,w}b`, that no other comma of the text is a
trailing comma (`noTC`), and that the stripped text does not end in a
fence marker. -/
theorem repair_single_trailing_comma (parse : List Char → Option PyObj)
    (c a w b : List Char) (o : PyObj)
    (hsplit : pyStrip c = '{' :: (a ++ ',' :: (w ++ '}' :: b)))
    (ha : noTC a = true) (hw : w.all isPySpace = true) (hb : noTC b = true)
    (hfence : isSuffixL ("```".data) (pyStrip c) = false)
    (hparse : parse ('{' :: (a ++ (w ++ '}' :: b))) = some o) :
    repairAndParse parse c = o := by
  have hnorm : normalizeCandidate c = '{' :: (a ++ (w ++ '}' :: b)) := by
    have h1 : isPrefixL ("```json".data) (pyStrip c) = false := by
      rw [hsplit]; rfl
    have h2 : isPrefixL ("```".data) (pyStrip c) = false := by
      rw [hsplit]; rfl
    simp only [normalizeCandidate, h1, h2, hfence, Bool.false_eq_true, if_false]
    rw [pyStrip_idem, hsplit]
    have ha' : noTC ('{' :: a) = true := by
      rw [noTC_cons_other (by decide)]; exact ha
    have hmain := rtc_removes_single ('{' :: a) w b ha' hw hb
    simpa using hmain
  simp only [repairAndParse, hnorm]
  rw [if_neg (by simp [isPySpace])]
  rw [hparse]

/-- Witness for C9: the candidate `{"a": 1,}` parses to the object of
`{"a": 1}` under a parser defined at exactly the comma-free text. -/
theorem repair_single_trailing_comma_witness :
    repairAndParse
      (fun s => if s = ("\x7b\x22a\x22: 1\x7d".data)
                then some [(("a" : String), JVal.jnum 1)] else none)
      ("\x7b\x22a\x22: 1,\x7d".data)
      = [(("a" : String), JVal.jnum 1)] :=
  repair_single_trailing_comma _ _ ("\x22a\x22: 1".data) [] []
    [(("a" : String), JVal.jnum 1)]
    (by decide) (by decide) (by decide) (by decide) (by decide) rfl

/-- Claim C1: whenever the candidate normalizes to whitespace only, or
both parse attempts (the initial one and the one after the second-pass
repair) fail, the pipeline substitutes the synthetic directive whose
`Next Action` is `"screenshot"` and whose `Reasoning` is a diagnostic
string, and the step completes with an ordinary result (no parse
exception reaches the caller: the dispatch returns `Except.ok`). -/
theorem parse_failure_fallback (parse : List Char → Option PyObj)
    (elems : List ScreenElement) (w h : Rat) (c : List Char)
    (hfail : (normalizeCandidate c).all isPySpace = true
      ∨ (parse (normalizeCandidate c) = none
         ∧ parse (secondRepair (normalizeCandidate c)) = none)) :
    lookupObj (repairAndParse parse c) ("Next Action") = some (JVal.jstr ("screenshot"))
    ∧ (∃ r, lookupObj (repairAndParse parse c) ("Reasoning") = some (JVal.jstr r))
    ∧ ∃ bs, (processCandidate parse elems w h c).2.2 = Except.ok bs := by
  have hd : repairAndParse parse c = defaultEmptyDirective
      ∨ repairAndParse parse c = defaultFailDirective (normalizeCandidate c) := by
    rcases hfail with h1 | ⟨h1, h2⟩
    · left; simp [repairAndParse, h1]
    · by_cases hsp : (normalizeCandidate c).all isPySpace = true
      · left; simp [repairAndParse, hsp]
      · right; simp [repairAndParse, hsp, h1, h2]
  rcases hd with hE | hE
  · refine ⟨?_, ?_, ?_⟩
    · simp [hE, defaultEmptyDirective, lookupObj]
    · exact ⟨_, by simp [hE, defaultEmptyDirective, lookupObj]; rfl⟩
    · exact ⟨_, by simp [processCandidate, postParse, hE, defaultEmptyDirective,
        lookupObj, applyBoxId, dispatch, strEq]; rfl⟩
  · refine ⟨?_, ?_, ?_⟩
    · simp [hE, defaultFailDirective, lookupObj]
    · exact ⟨_, by simp [hE, defaultFailDirective, lookupObj]; rfl⟩
    · exact ⟨_, by simp [processCandidate, postParse, hE, defaultFailDirective,
        lookupObj, applyBoxId, dispatch, strEq]; rfl⟩

/-- Witness for C1: a parser that always fails on the candidate `hello`
yields the screenshot fallback and an `Except.ok` step result. -/
theorem parse_failure_fallback_witness :
    ((fun _ => (none : Option PyObj)) (normalizeCandidate ("hello".data)) = none
      ∧ (fun _ => (none : Option PyObj)) (secondRepair (normalizeCandidate ("hello".data))) = none)
    ∧ (lookupObj (repairAndParse (fun _ => none) ("hello".data)) ("Next Action")
        = some (JVal.jstr ("screenshot"))
       ∧ (∃ r, lookupObj (repairAndParse (fun _ => none) ("hello".data)) ("Reasoning")
           = some (JVal.jstr r))
       ∧ ∃ bs, (processCandidate (fun _ => none) [] 1 1 ("hello".data)).2.2
           = Except.ok bs) :=
  ⟨⟨rfl, rfl⟩, parse_failure_fallback (fun _ => none) [] 1 1 ("hello".data)
    (Or.inr ⟨rfl, rfl⟩)⟩

theorem lookupObj_setKey_ne (o : PyObj) (k k' : String) (v : JVal) (hk : ¬(k' = k)) :
    lookupObj (setKey o k v) k' = lookupObj o k' := by
  simp only [setKey]
  split
  · next hany =>
    clear hany
    induction o with
      | nil => rfl
      | cons p o ih =>
        simp only [List.map_cons]
        by_cases hp : p.1 = k
        · rw [if_pos hp]
          simp only [lookupObj]
          rw [List.find?_cons_of_neg _ (by simp; intro hh; exact hk hh.symm),
              List.find?_cons_of_neg _ (by simp [hp]; intro hh; exact hk hh.symm)]
          exact ih
        · rw [if_neg hp]
          simp only [lookupObj]
          by_cases hp' : p.1 = k'
          · rw [List.find?_cons_of_pos _ (by simp [hp']),
                List.find?_cons_of_pos _ (by simp [hp'])]
          · rw [List.find?_cons_of_neg _ (by simp [hp']),
                List.find?_cons_of_neg _ (by simp [hp'])]
            exact ih
  · simp only [lookupObj, List.find?_append]
    rw [show List.find? (fun p => decide (p.1 = k')) [(k, v)] = none from by
          simp
          intro hh
          exact absurd hh.symm hk]
    simp

theorem lookupObj_applyBoxId (d : PyObj) (elems : List ScreenElement) (w h : Rat)
    (k : String) (hk : ¬(k = ("box_centroid_coordinate" : String))) :
    lookupObj (applyBoxId d elems w h).1 k = lookupObj d k := by
  cases h1 : lookupObj d ("Box ID") with
  | none => simp [applyBoxId, h1]
  | some v =>
    cases h2 : pyToInt v with
    | none => simp [applyBoxId, h1, h2]
    | some i =>
      cases h3 : pyIndex elems i with
      | none => simp [applyBoxId, h1, h2, h3]
      | some el =>
        simp only [applyBoxId, h1, h2, h3]
        exact lookupObj_setKey_ne d _ k _ hk

/-- Claim C10: when the pipeline does produce a successfully parsed
object but it lacks the `Next Action` key, the step fails with an
uncaught `KeyError` at the dispatch point; the no-exception guarantee
covers only parse failures. -/
theorem missing_next_action_keyerror (parse : List Char → Option PyObj)
    (elems : List ScreenElement) (w h : Rat) (c : List Char) (o : PyObj)
    (hsp : ¬((normalizeCandidate c).all isPySpace = true))
    (hparse : parse (normalizeCandidate c) = some o)
    (hmiss : lookupObj o ("Next Action") = none) :
    (processCandidate parse elems w h c).2.2 = Except.error ("KeyError: Next Action") := by
  have hrp : repairAndParse parse c = o := by
    simp [repairAndParse, hsp, hparse]
  have hlook : lookupObj (applyBoxId o elems w h).1 ("Next Action") = none := by
    rw [lookupObj_applyBoxId o elems w h _ (by decide)]
    exact hmiss
  simp only [processCandidate, postParse, hrp, dispatch, hlook]

/-- Witness for C10: the well-formed object of the response
`{"Reasoning": "x"}` makes the step raise `KeyError: Next Action`. -/
theorem missing_next_action_keyerror_witness :
    (¬((normalizeCandidate ("x".data)).all isPySpace = true))
    ∧ (processCandidate (fun _ => some [(("Reasoning" : String), JVal.jstr ("x"))])
        [] 1 1 ("x".data)).2.2 = Except.error ("KeyError: Next Action") :=
  ⟨by decide,
   missing_next_action_keyerror (fun _ => some [(("Reasoning" : String), JVal.jstr ("x"))])
     [] 1 1 ("x".data) [(("Reasoning" : String), JVal.jstr ("x"))]
     (by decide) rfl rfl⟩

/-- Claim C5: with a valid Box ID, the resolved coordinate stored under
`box_centroid_coordinate` is the centroid of the element's bounding box
scaled to pixel space, truncated to integer pixels:
`x = int((b0 + b2)/2 * w)`, `y = int((b1 + b3)/2 * h)`; the annotated
image is displayed. -/
theorem decode_box_centroid (d : PyObj) (elems : List ScreenElement) (w h : Rat)
    (v : JVal) (i : Int) (el : ScreenElement)
    (h1 : lookupObj d ("Box ID") = some v)
    (h2 : pyToInt v = some i)
    (h3 : pyIndex elems i = some el) :
    applyBoxId d elems w h =
      (setKey d ("box_centroid_coordinate")
        (JVal.jarr [JVal.jnum ((ratTrunc ((el.b0 + el.b2) / 2 * w) : Int) : Rat),
                    JVal.jnum ((ratTrunc ((el.b1 + el.b3) / 2 * h) : Int) : Rat)]),
       true) := by
  simp [applyBoxId, h1, h2, h3]

/-- Witness for C5 at the spec's example: bbox (0.1, 0.2, 0.3, 0.4)
with screen 1000 x 500 resolves to pixel coordinate (200, 150). -/
theorem decode_box_centroid_witness :
    applyBoxId [(("Box ID" : String), JVal.jnum 0)]
      [ScreenElement.mk (1/10) (2/10) (3/10) (4/10)] 1000 500 =
    ([(("Box ID" : String), JVal.jnum 0),
      (("box_centroid_coordinate" : String), JVal.jarr [JVal.jnum 200, JVal.jnum 150])],
     true) := by
  have hh := decode_box_centroid [(("Box ID" : String), JVal.jnum 0)]
    [ScreenElement.mk (1/10) (2/10) (3/10) (4/10)] 1000 500 (JVal.jnum 0) 0
    (ScreenElement.mk (1/10) (2/10) (3/10) (4/10)) rfl rfl rfl
  rw [hh]
  have e1 : ratTrunc (200 : Rat) = 200 := by
    rw [ratTrunc, if_pos (by norm_num), Rat.floor_def']
    norm_num
  have e2 : ratTrunc (150 : Rat) = 150 := by
    rw [ratTrunc, if_pos (by norm_num), Rat.floor_def']
    norm_num
  norm_num [setKey, e1, e2]
  decide

/-- Claim C6: when the directive carries a `Box ID` that cannot be
converted to an integer or is out of range, the failure is swallowed:
the directive is unchanged (no `box_centroid_coordinate` is added), the
unannotated SOM image is displayed (`false`), and decoding continues on
the unchanged directive. -/
theorem invalid_boxid_recovered (d : PyObj) (elems : List ScreenElement) (w h : Rat)
    (v : JVal)
    (h1 : lookupObj d ("Box ID") = some v)
    (h2 : pyToInt v = none ∨ ∃ i, pyToInt v = some i ∧ pyIndex elems i = none) :
    applyBoxId d elems w h = (d, false)
    ∧ postParse d elems w h = (d, false, dispatch d) := by
  have hmain : applyBoxId d elems w h = (d, false) := by
    rcases h2 with h2 | ⟨i, h2, h3⟩
    · simp [applyBoxId, h1, h2]
    · simp [applyBoxId, h1, h2, h3]
  exact ⟨hmain, by simp [postParse, hmain]⟩

/-- Witness for C6: Box ID 99 against an empty element list leaves the
directive untouched and falls back to the SOM image. -/
theorem invalid_boxid_recovered_witness :
    lookupObj [(("Box ID" : String), JVal.jnum 99)] ("Box ID") = some (JVal.jnum 99)
    ∧ (applyBoxId [(("Box ID" : String), JVal.jnum 99)] [] 1 1
        = ([(("Box ID" : String), JVal.jnum 99)], false)
       ∧ postParse [(("Box ID" : String), JVal.jnum 99)] [] 1 1
        = ([(("Box ID" : String), JVal.jnum 99)], false,
           dispatch [(("Box ID" : String), JVal.jnum 99)])) :=
  ⟨rfl, invalid_boxid_recovered _ [] 1 1 (JVal.jnum 99) rfl (Or.inr ⟨99, rfl, rfl⟩)⟩

/-- Counterexample to claim C4 as stated: the directive with the
unrecognized `Next Action` string "fly_to_moon" is not surfaced as a
decode error; the dispatch silently coerces it into a tool-use block
carrying that very string. -/
theorem unrecognized_action_counterexample :
    dispatch [(("Reasoning" : String), JVal.jstr ("r")),
              (("Next Action" : String), JVal.jstr ("fly_to_moon"))]
      = Except.ok [Block.textBlock ("r" ++ ("\n" : String) ++ ("Next Action" : String)
                     ++ (": " : String) ++ ("fly_to_moon" : String)),
                   Block.action (JVal.jstr ("fly_to_moon"))]
    ∧ ¬∃ e, dispatch [(("Reasoning" : String), JVal.jstr ("r")),
              (("Next Action" : String), JVal.jstr ("fly_to_moon"))] = Except.error e := by
  refine ⟨rfl, ?_⟩
  rintro ⟨e, he⟩
  rw [show dispatch [(("Reasoning" : String), JVal.jstr ("r")),
              (("Next Action" : String), JVal.jstr ("fly_to_moon"))]
        = Except.ok [Block.textBlock ("r" ++ ("\n" : String) ++ ("Next Action" : String)
                     ++ (": " : String) ++ ("fly_to_moon" : String)),
                   Block.action (JVal.jstr ("fly_to_moon"))] from rfl] at he
  exact Except.noConfusion he

/-- Claim C4 amended: an unrecognized `Next Action` string (anything
other than "None" and "type") is not a decode error; the dispatch step
silently coerces it into a tool-use block whose action is that string. -/
theorem unrecognized_action_coerced (d : PyObj) (a : String)
    (h1 : lookupObj d ("Next Action") = some (JVal.jstr a))
    (h2 : ¬(a = "None")) (h3 : ¬(a = "type")) :
    dispatch d = Except.ok
      ((Block.textBlock (planStr d) ::
        (match lookupObj d ("box_centroid_coordinate") with
         | some c => [Block.mouseMove c]
         | none => [])) ++ [Block.action (JVal.jstr a)]) := by
  simp only [dispatch, h1, strEq]
  rw [if_neg (by simpa using h2), if_neg (by simpa using h3)]

/-- Witness for the amended C4: the fallback action string "screenshot"
itself is coerced into a tool-use block. -/
theorem unrecognized_action_coerced_witness :
    lookupObj [(("Next Action" : String), JVal.jstr ("screenshot"))] ("Next Action")
      = some (JVal.jstr ("screenshot"))
    ∧ dispatch [(("Next Action" : String), JVal.jstr ("screenshot"))]
        = Except.ok [Block.textBlock ("\nNext Action: screenshot"),
                     Block.action (JVal.jstr ("screenshot"))] := by
  refine ⟨rfl, ?_⟩
  have hh := unrecognized_action_coerced [(("Next Action" : String), JVal.jstr ("screenshot"))]
    ("screenshot") rfl (by decide) (by decide)
  rw [hh]
  rfl

/-- Counterexample to claim C3 as stated: a transport failure raised by
`requests.post` propagates out of `run_oai_interleaved` as an exception;
no `(errorText, 0)` pair is produced. -/
theorem adapter_raises_counterexample :
    run_oai_interleaved (Except.error ("ConnectionError: connection refused"))
      = Except.error ("ConnectionError: connection refused")
    ∧ ¬∃ p, run_oai_interleaved (Except.error ("ConnectionError: connection refused"))
        = Except.ok p := by
  refine ⟨rfl, ?_⟩
  rintro ⟨p, hp⟩
  rw [show run_oai_interleaved (Except.error ("ConnectionError: connection refused"))
        = Except.error ("ConnectionError: connection refused") from rfl] at hp
  exact Except.noConfusion hp

/-- Claim C3 amended: `run_gemini_interleaved` never raises and converts
any SDK failure into an `(errorText, 0)` pair; `run_oai_interleaved`
returns an `(errorText, 0)` pair only for failures occurring after a
JSON response body is obtained (non-200 status, missing fields), while
a transport failure and a non-JSON body propagate as exceptions. -/
theorem adapter_error_pairs :
    (∀ gen est, run_gemini_interleaved gen est
        = Except.ok (match gen with
                     | .ok t => (t, est)
                     | .error e => (("Gemini API请求失败: " : String) ++ e, 0)))
    ∧ (∀ resp j, resp.body = Except.ok j →
        ∃ p, run_oai_interleaved (Except.ok resp) = Except.ok p)
    ∧ (∀ resp j, resp.body = Except.ok j → ¬(resp.status = 200) →
        run_oai_interleaved (Except.ok resp)
          = Except.ok (JVal.jstr (("API 请求失败，状态码: " : String) ++ toString resp.status
              ++ (", 响应: " : String) ++ pyStr j), 0))
    ∧ (∀ e, run_oai_interleaved (Except.error e) = Except.error e)
    ∧ (∀ resp e, resp.body = Except.error e →
        run_oai_interleaved (Except.ok resp) = Except.error e) := by
  refine ⟨?_, ?_, ?_, ?_, ?_⟩
  · intro gen est
    cases gen <;> rfl
  · intro resp j hb
    simp only [run_oai_interleaved, hb]
    by_cases hs : resp.status = 200
    · rw [if_pos hs]
      cases hc : oaiContent j with
      | none =>
        cases hu : oaiUsage j with
        | none => exact ⟨_, rfl⟩
        | some u => exact ⟨_, rfl⟩
      | some t =>
        cases hu : oaiUsage j with
        | none => exact ⟨_, rfl⟩
        | some u => exact ⟨_, rfl⟩
    · rw [if_neg hs]
      exact ⟨_, rfl⟩
  · intro resp j hb hs
    simp only [run_oai_interleaved, hb]
    rw [if_neg hs]
  · intro e
    rfl
  · intro resp e hb
    simp only [run_oai_interleaved, hb]

/-- Witness for the amended C3: a 404 response with a JSON body yields
the error pair; a failing Gemini SDK call yields the error pair. -/
theorem adapter_error_pairs_witness :
    ((HttpResponse.mk 404 (Except.ok JVal.jnull)).body = Except.ok JVal.jnull
     ∧ ¬((HttpResponse.mk 404 (Except.ok JVal.jnull)).status = 200))
    ∧ run_oai_interleaved (Except.ok (HttpResponse.mk 404 (Except.ok JVal.jnull)))
        = Except.ok (JVal.jstr (("API 请求失败，状态码: " : String) ++ toString (404 : Nat)
            ++ (", 响应: " : String) ++ pyStr JVal.jnull), 0)
    ∧ run_gemini_interleaved (Except.error ("SSLError")) 0
        = Except.ok (("Gemini API请求失败: " : String) ++ ("SSLError" : String), 0) := by
  refine ⟨⟨rfl, by decide⟩, ?_, ?_⟩
  · exact adapter_error_pairs.2.2.1 (HttpResponse.mk 404 (Except.ok JVal.jnull))
      JVal.jnull rfl (by decide)
  · exact adapter_error_pairs.1 (Except.error ("SSLError")) 0

theorem ciEqc_btick {c : Char} (h : ciEqc btick c = true) : c = btick := by
  simp only [ciEqc, decide_eq_true_eq] at h
  have hb : lowerN btick.toNat = 96 := by decide
  rw [hb] at h
  simp only [lowerN] at h
  split at h
  · next hcond => omega
  · next hcond =>
    have h2 : c.toNat = btick.toNat := by
      have h3 : btick.toNat = 96 := by decide
      omega
    exact Char.ext (UInt32.toNat.inj h2)

theorem isPrefixCi_btick_false {ns bs : List Char} {c : Char} (hc : ¬(c = btick)) :
    isPrefixCi (btick :: ns) (c :: bs) = false := by
  cases hcc : ciEqc btick c with
  | false => simp [isPrefixCi, hcc]
  | true => exact absurd (ciEqc_btick hcc) hc

theorem firstIdxCi_shift (ns rest : List Char) :
    ∀ pre, (∀ c ∈ pre, ¬(c = btick)) →
    firstIdxCi (btick :: ns) (pre ++ rest)
      = (firstIdxCi (btick :: ns) rest).map (· + pre.length) := by
  intro pre
  induction pre with
  | nil =>
    intro _
    simp only [List.nil_append, List.length_nil]
    cases firstIdxCi (btick :: ns) rest <;> simp
  | cons c pre ih =>
    intro hpre
    have hc := hpre c (by simp)
    rw [List.cons_append]
    rw [show firstIdxCi (btick :: ns) (c :: (pre ++ rest))
          = (firstIdxCi (btick :: ns) (pre ++ rest)).map (· + 1) from by
          simp [firstIdxCi, isPrefixCi_btick_false hc]]
    rw [ih (fun d hd => hpre d (by simp [hd]))]
    cases firstIdxCi (btick :: ns) rest with
    | none => simp
    | some a => simp; omega

theorem firstIdxCi_hit (needle rest : List Char) (h : isPrefixCi needle rest = true) :
    firstIdxCi needle rest = some 0 := by
  cases rest <;> simp [firstIdxCi, h]

theorem ciEqL_cons {a b : Char} {as bs : List Char}
    (h1 : ciEqc a b = true) (h2 : ciEqL as bs = true) : ciEqL (a :: as) (b :: bs) = true := by
  simp [ciEqL, h1, h2]

theorem ciEqL_length (xs : List Char) : ∀ ys, ciEqL xs ys = true → xs.length = ys.length := by
  induction xs with
  | nil => intro ys h; cases ys with
    | nil => rfl
    | cons b bs => simp [ciEqL] at h
  | cons a as ih =>
    intro ys h
    cases ys with
    | nil => simp [ciEqL] at h
    | cons b bs =>
      simp only [ciEqL, Bool.and_eq_true] at h
      simp [ih bs h.2]

theorem isPrefixCi_of_ciEqL (xs : List Char) : ∀ ys rest, ciEqL xs ys = true →
    isPrefixCi xs (ys ++ rest) = true := by
  induction xs with
  | nil => intro ys rest _; rfl
  | cons a as ih =>
    intro ys rest h
    cases ys with
    | nil => simp [ciEqL] at h
    | cons b bs =>
      simp only [ciEqL, Bool.and_eq_true] at h
      simp only [List.cons_append, isPrefixCi, Bool.and_eq_true]
      exact ⟨h.1, ih bs rest h.2⟩

theorem isPrefixL_btick_false {ns bs : List Char} {c : Char} (hc : ¬(c = btick)) :
    isPrefixL (btick :: ns) (c :: bs) = false := by
  have hbc : ¬(btick = c) := fun hh => hc hh.symm
  simp [isPrefixL, hbc]

theorem firstIdxL_shift (ns rest : List Char) :
    ∀ pre, (∀ c ∈ pre, ¬(c = btick)) →
    firstIdxL (btick :: ns) (pre ++ rest)
      = (firstIdxL (btick :: ns) rest).map (· + pre.length) := by
  intro pre
  induction pre with
  | nil =>
    intro _
    simp only [List.nil_append, List.length_nil]
    cases firstIdxL (btick :: ns) rest <;> simp
  | cons c pre ih =>
    intro hpre
    have hc := hpre c (by simp)
    rw [List.cons_append]
    rw [show firstIdxL (btick :: ns) (c :: (pre ++ rest))
          = (firstIdxL (btick :: ns) (pre ++ rest)).map (· + 1) from by
          simp [firstIdxL, isPrefixL_btick_false hc]]
    rw [ih (fun d hd => hpre d (by simp [hd]))]
    cases firstIdxL (btick :: ns) rest with
    | none => simp
    | some a => simp; omega

theorem firstIdxL_hit (needle rest : List Char) (h : isPrefixL needle rest = true) :
    firstIdxL needle rest = some 0 := by
  cases rest <;> simp [firstIdxL, h]

theorem isPrefixL_refl_append (xs : List Char) : ∀ rest, isPrefixL xs (xs ++ rest) = true := by
  induction xs with
  | nil => intro rest; rfl
  | cons a as ih => intro rest; simp [isPrefixL, ih]

/-- Claim C7: for every input containing a well-formed fenced block
labeled (case-insensitively) with the target data type, `extract_data`
returns exactly that block's inner text with surrounding whitespace
trimmed; the function is total, so no exception can be raised. The
decomposition is: prose without backticks, the opening marker with a
case-insensitive label, backtick-free content, the closing marker, then
arbitrary text. -/
theorem extract_labeled_fence (pre lbl mid post : List Char)
    (hpre : btick ∉ pre) (hlbl : ciEqL ("json".data) lbl = true) (hmid : btick ∉ mid) :
    extractData ("json".data)
      (pre ++ (("```".data) ++ (lbl ++ (mid ++ (("```".data) ++ post)))))
      = (pyStrip mid, ExtractMethod.fenced) := by
  have hlen4 : lbl.length = 4 := by
    have hl := ciEqL_length _ lbl hlbl
    have h4 : (("json".data)).length = 4 := by decide
    omega
  have hneedle : ("```".data) ++ ("json".data) = btick :: ("``json".data) := by decide
  have hhit : isPrefixCi (btick :: ("``json".data))
      (("```".data) ++ (lbl ++ (mid ++ (("```".data) ++ post)))) = true := by
    rw [← hneedle]
    have hci : ciEqL (("```".data) ++ ("json".data)) (("```".data) ++ lbl) = true := by
      rw [show (("```".data) ++ ("json".data))
            = btick :: (btick :: (btick :: ("json".data))) from by decide,
          show (("```".data) ++ lbl) = btick :: (btick :: (btick :: lbl)) from by
            rw [show ("```".data) = [btick, btick, btick] from by decide]
            rfl]
      exact ciEqL_cons (by decide) (ciEqL_cons (by decide) (ciEqL_cons (by decide) hlbl))
    have hp := isPrefixCi_of_ciEqL _ (("```".data) ++ lbl) (mid ++ (("```".data) ++ post)) hci
    simpa [List.append_assoc] using hp
  have hfound : firstIdxCi (("```".data) ++ ("json".data))
      (pre ++ (("```".data) ++ (lbl ++ (mid ++ (("```".data) ++ post)))))
      = some pre.length := by
    rw [hneedle]
    rw [firstIdxCi_shift _ _ pre (fun c hc hceq => hpre (hceq ▸ hc))]
    rw [firstIdxCi_hit _ _ hhit]
    simp
  have hdrop : (pre ++ (("```".data) ++ (lbl ++ (mid ++ (("```".data) ++ post))))).drop
      (pre.length + 3 + ("json".data).length) = mid ++ (("```".data) ++ post) := by
    have hlen : (pre ++ (("```".data) ++ lbl)).length
        = pre.length + 3 + ("json".data).length := by
      simp [hlen4]
    rw [show pre ++ (("```".data) ++ (lbl ++ (mid ++ (("```".data) ++ post))))
          = (pre ++ (("```".data) ++ lbl)) ++ (mid ++ (("```".data) ++ post)) from by
          simp [List.append_assoc]]
    exact List.drop_left' hlen
  have hclose : firstIdxL ("```".data) (mid ++ (("```".data) ++ post)) = some mid.length := by
    rw [show ("```".data) = btick :: ("``".data) from by decide]
    rw [firstIdxL_shift _ _ mid (fun c hc hceq => hmid (hceq ▸ hc))]
    rw [firstIdxL_hit _ _ (by
      rw [show btick :: ("``".data) = ("```".data) from by decide]
      exact isPrefixL_refl_append _ post)]
    simp
  have hpat1 : pat1 ("json".data)
      (pre ++ (("```".data) ++ (lbl ++ (mid ++ (("```".data) ++ post))))) = some mid := by
    simp only [pat1, hfound, hdrop, hclose]
    simp [List.take_left]
  have hne : ¬(pre ++ (("```".data) ++ (lbl ++ (mid ++ (("```".data) ++ post)))) = []) := by
    simp
  simp only [extractData, if_neg hne, hpat1]

/-- Witness for C7: prose, an upper-case `JSON` label, padded content
`{"a": 1}` and a trailing remark extract to the trimmed content. -/
theorem extract_labeled_fence_witness :
    (btick ∉ ("Result: ".data)) ∧ ciEqL ("json".data) ("JSON".data) = true
    ∧ (btick ∉ ((" \x7b\x22a\x22: 1\x7d ").data))
    ∧ extractData ("json".data)
        (("Result: ".data) ++ (("```".data) ++ (("JSON".data) ++
          (((" \x7b\x22a\x22: 1\x7d ").data) ++ (("```".data) ++ (" done".data))))))
        = (pyStrip ((" \x7b\x22a\x22: 1\x7d ").data), ExtractMethod.fenced) :=
  ⟨by decide, by decide, by decide,
   extract_labeled_fence _ _ _ _ (by decide) (by decide) (by decide)⟩

theorem pat2At_none {s : List Char} (h : '{' ∉ s) : pat2At s = none := by
  rw [pat2At]
  split
  · cases hd : (s.drop 3).dropWhile isPySpace with
    | nil => rfl
    | cons c r =>
      have hc : ¬(c = '{') := by
        intro hceq
        subst hceq
        exact h ((List.drop_subset _ _)
          (((List.dropWhile_sublist _).subset) (hd ▸ List.mem_cons_self _ _)))
      simp [hc]
  · rfl

theorem pat2_none (s : List Char) (h : '{' ∉ s) : pat2 s = none := by
  induction s with
  | nil => rfl
  | cons c r ih =>
    simp only [pat2]
    rw [pat2At_none h]
    exact ih (fun hc => h (by simp [hc]))

theorem pat4_none (s : List Char) (h : '{' ∉ s) : pat4 s = none := by
  induction s with
  | nil => rfl
  | cons c r ih =>
    simp only [pat4]
    have hc : ¬(c = '{') := by
      intro hceq
      subst hceq
      exact h (List.mem_cons_self _ _)
    rw [show pat4At (c :: r) = none from by simp [pat4At, hc]]
    exact ih (fun hcc => h (by simp [hcc]))

theorem braceScan_none (s : List Char) (h : '{' ∉ s) : braceScan s = none := by
  have hd : s.dropWhile (fun c => !decide (c = '{')) = [] := by
    rw [List.dropWhile_eq_nil_iff]
    intro a ha
    simp only [Bool.not_eq_true', decide_eq_false_iff_not]
    intro heq
    exact h (heq ▸ ha)
  simp [braceScan, hd]

/-- Counterexample to claim C8 as stated: the input `` ```json hello ``
contains no brace anywhere, yet `extract_data` does not return the
trimmed original input tagged Fallback: pattern 3 (an opening fence
marker without a closing one) fires first and returns only the text
after the marker. -/
theorem extract_no_brace_counterexample :
    ('{' ∉ (("```json hello").data))
    ∧ extractData ("json".data) (("```json hello").data)
        = (("hello".data), ExtractMethod.fenceNoClose)
    ∧ ¬(extractData ("json".data) (("```json hello").data)
        = (pyStrip (("```json hello").data), ExtractMethod.fallback)) :=
  ⟨by decide, by decide, by decide⟩

/-- Claim C8 amended: for every non-empty input with no `{` character
and no case-insensitive occurrence of the labeled fence marker,
`extract_data` returns the entire trimmed input tagged Fallback (the
counterexample shows the fence-marker exclusion is necessary; the empty
input is returned verbatim through the early guard with its own tag). -/
theorem extract_fallback_no_brace (s : List Char) (hne : ¬(s = []))
    (hbrace : '{' ∉ s)
    (hfence : firstIdxCi (("```".data) ++ ("json".data)) s = none) :
    extractData ("json".data) s = (pyStrip s, ExtractMethod.fallback) := by
  have h1 : pat1 ("json".data) s = none := by
    simp only [pat1, hfence]
  have h3 : pat3 ("json".data) s = none := by
    simp only [pat3, hfence]
    rfl
  simp only [extractData, if_neg hne, h1, pat2_none s hbrace, h3, pat4_none s hbrace,
    braceScan_none s hbrace]

/-- Witness for the amended C8: prose with neither braces nor fence
markers falls through every pattern to the trimmed verbatim return. -/
theorem extract_fallback_no_brace_witness :
    (¬(("no json here".data) = [])) ∧ ('{' ∉ ("no json here".data))
    ∧ firstIdxCi (("```".data) ++ ("json".data)) ("no json here".data) = none
    ∧ extractData ("json".data) ("no json here".data)
        = (pyStrip ("no json here".data), ExtractMethod.fallback) :=
  ⟨by decide, by decide, by decide,
   extract_fallback_no_brace _ (by decide) (by decide) (by decide)⟩
